import Mathlib

/-!
Verification of the butane runtime core (`butane_core`) against its
natural-language specification.

This file gives a shallow embedding of the parts of the source that the
claims exercise:

* `ForeignKey` (src/butane_core/src/fkey.rs): the two `OnceCell`s become
  `Option`s; `pk`, `ensure_valpk`, the constructors, `Clone` and the serde
  `visit_map` deserializer are translated function by function.  A Rust
  `panic!` is modelled as `Option.none` in the result.
* `Many` (src/butane_core/src/many.rs): `new`, `ensure_init`, `add`,
  `remove`, `save`, `query`/`load_query`/`load` and `PartialEq`.  Methods
  taking `&mut self` return the updated state next to the `Result`.
* `VecRows` and `MapDeref` (src/butane_core/src/db/connmethods.rs).

Member entities (`T : DataObject`) are abstracted by the data the source
uses of them: a primary key (`pk().to_sql()`) and the validity flag
`pk().is_valid()` (the `PrimaryKeyType` trait is declared outside the
source tree, so validity is an abstract boolean of the entity).
The database connection is abstracted by oracles for the success of
`insert_only` / `delete_where`, together with a trace of the operations the
save path issues; query execution by backend drivers is out of scope of the
source tree and is modelled from the spec where a claim needs it.
-/

namespace Butane

/-- Model of `SqlVal`: the SQL value enum, restricted to the variants the
claims exercise. -/
inductive SqlVal where
  | null
  | int (i : Int)
  | text (s : String)
  deriving DecidableEq, Repr

/-- Model of `SqlType`, restricted to the variants the claims exercise. -/
inductive SqlType where
  | int
  | text
  deriving DecidableEq, Repr

/-- Model of `butane_core::Error`: the error kinds reachable from the
embedded operations.  Backend failures passed through unchanged from the
connection are collected in `backend`. -/
inductive Error where
  | valueNotSaved
  | valueNotLoaded
  | notInitialized
  | backend (msg : String)
  deriving DecidableEq, Repr

/-- A member entity (`T : DataObject`), abstracted by what the embedded
code reads from it: `pkVal` models `pk().to_sql()` and `pkValid` models
`pk().is_valid()` (whether the primary key looks initialized; the
`PrimaryKeyType::is_valid` implementation lives outside the source tree). -/
structure Entity where
  pkVal : SqlVal
  pkValid : Bool
  deriving DecidableEq, Repr

/-! ### ForeignKey (src/butane_core/src/fkey.rs) -/

/-- Model of `ForeignKey<T>`: the two `OnceCell`s (`val : OnceCell<Box<T>>`,
`valpk : OnceCell<SqlVal>`) become `Option`s. -/
structure ForeignKey where
  val : Option Entity
  valpk : Option SqlVal
  deriving DecidableEq, Repr

namespace ForeignKey

/-- Source `ForeignKey::new_raw`: both cells empty. -/
def new_raw : ForeignKey := { val := none, valpk := none }

/-- Source `ForeignKey::from_pk`: caches the key, value cell empty. -/
def from_pk (pk : SqlVal) : ForeignKey := { val := none, valpk := some pk }

/-- Source `impl From<T> for ForeignKey<T>`: caches the value, key cell empty. -/
def fromEntity (obj : Entity) : ForeignKey := { val := some obj, valpk := none }

/-- Source `ForeignKey::from_sql_ref`: caches the key read from SQL, value empty. -/
def from_sql_ref (valref : SqlVal) : ForeignKey :=
  { valpk := some valref, val := none }

/-- Source `ForeignKey::pk`: the value cell is consulted first and, when populated,
the key is derived from the cached value on this call; only otherwise is the
cached key read.  `none` models the `panic!("Invalid foreign key state")`
branch.  The source performs no `OnceCell` write in `pk`, so the cell state
is returned unchanged. -/
def pk (fk : ForeignKey) : Option SqlVal × ForeignKey :=
  (match fk.val with
   | some v => some v.pkVal
   | none =>
     match fk.valpk with
     | some pkv => some pkv
     | none => none,
   fk)

/-- Source `ForeignKey::ensure_valpk`: returns the cached key if present; else
derives it from the cached value and stores it in the `valpk` cell.  `none`
models the `panic!("Invalid foreign key state")` branch. -/
def ensure_valpk (fk : ForeignKey) : Option (SqlVal × ForeignKey) :=
  match fk.valpk with
  | some sqlval => some (sqlval, fk)
  | none =>
    match fk.val with
    | some v => some (v.pkVal, { fk with valpk := some v.pkVal })
    | none => none

/-- Source `impl Clone for ForeignKey`: ensures the pk is cached, then clones only
the `valpk` cell (`val` is left empty in the clone).  `none` models the
panic propagated from `ensure_valpk`. -/
def clone (fk : ForeignKey) : Option ForeignKey :=
  match fk.ensure_valpk with
  | some (_, fk') => some { val := none, valpk := fk'.valpk }
  | none => none

/-- The serde `visit_map` deserializer's final step: after reading the
optional `val` and `valpk` fields it returns a fully populated cell only
when both fields were present, and `ForeignKey::new_raw()` otherwise. -/
def visitMap (field_0 : Option Entity) (field_1 : Option SqlVal) : ForeignKey :=
  match field_0, field_1 with
  | some f0, some f1 => { val := some f0, valpk := some f1 }
  | _, _ => ForeignKey.new_raw

/-- Source `impl Serialize for ForeignKey`: each of the two fields is emitted only
when its cell is populated.  The result is the pair of optional fields the
deserializer will see again. -/
def serializedFields (fk : ForeignKey) : Option Entity × Option SqlVal :=
  (fk.val, fk.valpk)

end ForeignKey

/-! ### Many (src/butane_core/src/many.rs) -/

/-- Model of the query filters (`BoolExpr`) the embedded code builds. -/
inductive BoolExpr where
  | inList (col : String) (vals : List SqlVal)
  | eqVal (col : String) (v : SqlVal)
  deriving DecidableEq, Repr

/-- A database operation issued through `ConnectionMethods` by the save
path: `insert_only(table, columns, values)` and `delete_where(table, expr)`. -/
inductive DbOp where
  | insertOnly (table : String) (values : List SqlVal)
  | deleteWhere (table : String) (expr : BoolExpr)
  deriving DecidableEq, Repr

/-- Model of `Many<T>`: the `OnceCell<Vec<T>>` cache becomes an
`Option (List Entity)`. -/
structure Many where
  item_table : String
  owner : Option SqlVal
  owner_type : SqlType
  new_values : List SqlVal
  removed_values : List SqlVal
  all_values : Option (List Entity)
  deriving DecidableEq, Repr

/-- The connection abstracted by success oracles for the two operations the
save path issues; failures model backend errors passed through unchanged. -/
structure SaveConn where
  insertOk : List SqlVal → Bool
  deleteOk : BoolExpr → Bool

namespace Many

/-- Source `Many::new`. -/
def new : Many :=
  { item_table := "not_initialized"
    owner := none
    owner_type := SqlType.int
    new_values := []
    removed_values := []
    all_values := none }

/-- Source `Many::ensure_init`: a no-op when the owner is already set; otherwise
binds the table, owner and owner type and resets the cache. -/
def ensure_init (m : Many) (tbl : String) (ownr : SqlVal) (ty : SqlType) : Many :=
  if m.owner.isSome then m
  else
    { m with
      item_table := tbl
      owner := some ownr
      owner_type := ty
      all_values := none }

/-- Source `Many::add`: rejects a value whose primary key looks uninitialized with
`ValueNotSaved` before any mutation; otherwise clears the cache and pushes
the key onto `new_values`.  The updated state is returned beside the
result (the source takes `&mut self`). -/
def add (m : Many) (new_val : Entity) : Except Error Unit × Many :=
  if !new_val.pkValid then (Except.error Error.valueNotSaved, m)
  else
    (Except.ok (),
     { m with
       all_values := none
       new_values := m.new_values ++ [new_val.pkVal] })

/-- Source `Many::remove`: clears the cache and pushes the key onto
`removed_values`; no membership check. -/
def remove (m : Many) (val : Entity) : Many :=
  { m with
    all_values := none
    removed_values := m.removed_values ++ [val.pkVal] }

/-- Source `Many::get`: the cached result set, or `ValueNotLoaded`. -/
def get (m : Many) : Except Error (List Entity) :=
  match m.all_values with
  | some v => Except.ok v
  | none => Except.error Error.valueNotLoaded

/-- Source `Many::columns`: the two-column shape of the join table. -/
def columns (m : Many) (memberTy : SqlType) : List (String × SqlType) :=
  [("owner", m.owner_type), ("has", memberTy)]

/-- The `while` loop of `Many::save`: `new_values.pop()` takes values from
the end of the vector, so the loop is given the list already reversed and
pops its head.  Each iteration removes the value from the log and only then
attempts `insert_only(item_table, columns, [owner, value])`; a failure
aborts with the popped value already gone.  Returns the values still in the
log (in popped orientation), the trace of operations issued, and whether
every insert succeeded. -/
def saveInsertLoop (conn : SaveConn) (tbl : String) (ownr : SqlVal) :
    List SqlVal → List SqlVal × List DbOp × Bool
  | [] => ([], [], true)
  | v :: rest =>
    if conn.insertOk [ownr, v] then
      let r := saveInsertLoop conn tbl ownr rest
      (r.1, DbOp.insertOnly tbl [ownr, v] :: r.2.1, r.2.2)
    else (rest, [DbOp.insertOnly tbl [ownr, v]], false)

/-- Source `Many::save`: requires initialization; drains `new_values` from the end,
inserting one row per entry; then, if `removed_values` is non-empty, first
takes the whole log (`std::mem::take`) and then issues one
`delete_where(item_table, In("has", removed))`; finally clears
`new_values`.  Returns the result, the final in-memory state and the trace
of operations issued to the connection. -/
def save (m : Many) (conn : SaveConn) : Except Error Unit × Many × List DbOp :=
  match m.owner with
  | none => (Except.error Error.notInitialized, m, [])
  | some ownr =>
    let r := saveInsertLoop conn m.item_table ownr m.new_values.reverse
    let m1 : Many := { m with new_values := r.1.reverse }
    if r.2.2 then
      if m1.removed_values.isEmpty then
        (Except.ok (), { m1 with new_values := [] }, r.2.1)
      else
        let removed := m1.removed_values
        let m2 : Many := { m1 with removed_values := [] }
        let op := DbOp.deleteWhere m.item_table (BoolExpr.inList "has" removed)
        if conn.deleteOk (BoolExpr.inList "has" removed) then
          (Except.ok (), { m2 with new_values := [] }, r.2.1 ++ [op])
        else (Except.error (Error.backend "delete_where"), m2, r.2.1 ++ [op])
    else (Except.error (Error.backend "insert_only"), m1, r.2.1)

/-- Source `impl PartialEq for Many`: owner and item_table only. -/
def beq (a b : Many) : Bool :=
  decide (a.owner = b.owner) && decide (a.item_table = b.item_table)

end Many

/-! ### VecRows and MapDeref (src/butane_core/src/db/connmethods.rs) -/

/-- Model of `VecRows<T>`: a vector of rows and a current index. -/
structure VecRows (ρ : Type) where
  rows : List ρ
  idx : Nat
  deriving DecidableEq, Repr

namespace VecRows

/-- Source `VecRows::new`. -/
def new (rows : List ρ) : VecRows ρ := { rows := rows, idx := 0 }

/-- Source `BackendRows::next` for `VecRows`: reads `rows.get(idx)`, then
increments `idx`, and returns the row read (infallible, the source always
returns `Ok`). -/
def next (v : VecRows ρ) : Option ρ × VecRows ρ :=
  (v.rows.get? v.idx, { v with idx := v.idx + 1 })

/-- Source `BackendRows::current` for `VecRows`: reads `rows.get(idx)` at the
index as it stands now (after any increments done by `next`). -/
def current (v : VecRows ρ) : Option ρ :=
  v.rows.get? v.idx

end VecRows

/-- Source `MapDeref::next` with the underlying `BackendRows` cursor abstracted by
its stream of remaining rows (the trait is forward-only, so a cursor is
observationally its remaining row stream; `VecRows`, the in-tree
implementor, never fails, so the `Err(e) => Err(e)` passthrough arm of the
source is unreachable here).  One underlying row is consumed, then the
fallible projection is applied to it and its failure is propagated. -/
def mapDerefNext (f : ρ → Except Error β) :
    List ρ → Except Error (Option β) × List ρ
  | [] => (Except.ok none, [])
  | r :: rest => ((f r).map some, rest)

/-- Driving `MapDeref` as a `FallibleIterator` is driven: `next` is called
repeatedly until it returns `Ok(None)` (end of data) or an error.  Returns
the projected items produced before the stop, and the error if one stopped
the iteration. -/
def mapDerefDrive (f : ρ → Except Error β) : List ρ → List β × Option Error
  | [] => ([], none)
  | r :: rest =>
    match f r with
    | Except.ok b =>
      let p := mapDerefDrive f rest
      (b :: p.1, p.2)
    | Except.error e => ([], some e)

/-! ### Backend database state for the load/persist paths

Backend drivers are external collaborators of the source tree, so the
execution of the statements `Many` issues is modelled from the spec's
Connection Contract (spec section 4.3). -/

/-- Modelled from the spec: the durable state a backend holds for one
`Many` relationship — the join table (rows `(owner, has)`) and the member
entity table.  `fail` set means every statement issued to this connection
reports a backend error (used to model connection failure). -/
structure Db where
  joinRows : List (SqlVal × SqlVal)
  members : List Entity
  fail : Bool
  deriving DecidableEq, Repr

/-- Modelled from the spec: evaluation of a `delete_where` predicate over a
join-table row `(owner, has)`, per the Connection Contract's
`delete_where(table, predicate)`. -/
def BoolExpr.evalJoinRow : BoolExpr → SqlVal × SqlVal → Bool
  | BoolExpr.inList col vals, row =>
    if col = "owner" then decide (row.1 ∈ vals)
    else if col = "has" then decide (row.2 ∈ vals)
    else false
  | BoolExpr.eqVal col v, row =>
    if col = "owner" then decide (row.1 = v)
    else if col = "has" then decide (row.2 = v)
    else false

namespace Db

/-- Modelled from the spec: execution of the subquery filter built by
`Many::query` — member rows whose primary key occurs as `has` in a join
row whose `owner` equals the reference's owner key. -/
def runSubquery (db : Db) (ownr : SqlVal) : List Entity :=
  db.members.filter fun e =>
    decide (e.pkVal ∈ (db.joinRows.filter fun r => decide (r.1 = ownr)).map Prod.snd)

/-- Modelled from the spec: execution of the `In(PKCOL, keys)` filter built
by `Many::load_query` for the pending-add log. -/
def runPkIn (db : Db) (keys : List SqlVal) : List Entity :=
  db.members.filter fun e => decide (e.pkVal ∈ keys)

/-- Modelled from the spec: the effect of one issued operation on the
backend state.  `insert_only` appends one join row; `delete_where` deletes
every join row matching the predicate. -/
def applyOp (db : Db) : DbOp → Db
  | DbOp.insertOnly _ vals =>
    match vals with
    | [o, h] => { db with joinRows := db.joinRows ++ [(o, h)] }
    | _ => db
  | DbOp.deleteWhere _ e =>
    { db with joinRows := db.joinRows.filter fun r => !(BoolExpr.evalJoinRow e r) }

/-- Applies a trace of operations in order. -/
def applyOps (db : Db) (ops : List DbOp) : Db := ops.foldl applyOp db

end Db

namespace Many

/-- Source `Many::load` composed with `Many::query` and `Many::load_query`:
if the reference is uninitialized, `query()` fails with `NotInitialized`
and `load` swallows it, returning the empty sequence.  Otherwise
`load_query` consults the `all_values` once-cell: a populated cache is
returned as is; an empty cache runs the subquery against the join table,
appends the result of the `In` query for the pending-add log when that log
is non-empty, and populates the cache with the merged list (a query failure
leaves the cache empty, per `get_or_try_init`).  The pending-remove log is
not consulted anywhere on this path. -/
def load (m : Many) (db : Db) : Except Error (List Entity × Many) :=
  match m.owner with
  | none => Except.ok ([], m)
  | some ownr =>
    match m.all_values with
    | some vals => Except.ok (vals, m)
    | none =>
      if db.fail then Except.error (Error.backend "query")
      else
        let vals := db.runSubquery ownr
        let vals :=
          if m.new_values.isEmpty then vals
          else vals ++ db.runPkIn m.new_values
        Except.ok (vals, { m with all_values := some vals })

end Many

/-! ### Concrete instances used by witnesses -/

/-- A connection on which every operation succeeds. -/
def connOk : SaveConn := { insertOk := fun _ => true, deleteOk := fun _ => true }

/-- An initialized `Many` with one pending add and one pending remove. -/
def manyW : Many :=
  { item_table := "t"
    owner := some (SqlVal.int 7)
    owner_type := SqlType.int
    new_values := [SqlVal.int 1]
    removed_values := [SqlVal.int 9]
    all_values := none }

/-- A backend state with members 1 and 2 joined to owner 7. -/
def dbW : Db :=
  { joinRows := [(SqlVal.int 7, SqlVal.int 1), (SqlVal.int 7, SqlVal.int 2)]
    members :=
      [{ pkVal := SqlVal.int 1, pkValid := true },
       { pkVal := SqlVal.int 2, pkValid := true }]
    fail := false }

/-- The member entity with key 1. -/
def entA : Entity := { pkVal := SqlVal.int 1, pkValid := true }

/-- An initialized `Many` for owner 7 whose pending-remove log holds key 1. -/
def manyRem : Many :=
  { item_table := "t"
    owner := some (SqlVal.int 7)
    owner_type := SqlType.int
    new_values := []
    removed_values := [SqlVal.int 1]
    all_values := none }

/-! ### Helper lemmas -/

/-- The insert loop of `Many::save` leaves some final segment of the
(popped-orientation) log: each iteration pops the head before attempting
the insert, so the remaining log is a `drop` of the input. -/
theorem saveInsertLoop_drop (conn : SaveConn) (tbl : String) (ownr : SqlVal)
    (l : List SqlVal) :
    ∃ k, (Many.saveInsertLoop conn tbl ownr l).1 = List.drop k l := by
  induction l with
  | nil => exact ⟨0, rfl⟩
  | cons v rest ih =>
    by_cases hc : conn.insertOk [ownr, v] = true
    · obtain ⟨k, hk⟩ := ih
      exact ⟨k + 1, by simp [Many.saveInsertLoop, hc, hk]⟩
    · exact ⟨1, by simp [Many.saveInsertLoop, hc]⟩

/-- When the insert loop reports success it has drained the whole log and
issued exactly one `insert_only(tbl, [owner, v])` per entry, in order. -/
theorem saveInsertLoop_ok (conn : SaveConn) (tbl : String) (ownr : SqlVal)
    (l : List SqlVal) (h : (Many.saveInsertLoop conn tbl ownr l).2.2 = true) :
    (Many.saveInsertLoop conn tbl ownr l).1 = [] ∧
    (Many.saveInsertLoop conn tbl ownr l).2.1 =
      l.map fun v => DbOp.insertOnly tbl [ownr, v] := by
  induction l with
  | nil => exact ⟨rfl, rfl⟩
  | cons v rest ih =>
    by_cases hc : conn.insertOk [ownr, v] = true
    · have h' : (Many.saveInsertLoop conn tbl ownr rest).2.2 = true := by
        simpa [Many.saveInsertLoop, hc] using h
      obtain ⟨h1, h2⟩ := ih h'
      constructor
      · simpa [Many.saveInsertLoop, hc] using h1
      · simpa [Many.saveInsertLoop, hc] using h2
    · exfalso
      simp [Many.saveInsertLoop, hc] at h

/-! ### Claims -/

/-- C1: the claim states that every `ForeignKey` reachable through the
public interface — deserialization included — has at least one of the two
cells populated, so `pk()` never hits the neither-populated panic.  The
code violates this: `visit_map` returns `new_raw()` (both cells empty)
unless *both* fields are present in the input, while serialization emits
only populated cells.  Deserializing the serialization of `from_pk(42)`
(only `valpk` present) therefore yields the neither-populated state, on
which `pk()` hits the `panic!("Invalid foreign key state")` branch. -/
theorem c1_deserialize_breaks_invariant :
    ForeignKey.serializedFields (ForeignKey.from_pk (SqlVal.int 42)) =
      (none, some (SqlVal.int 42)) ∧
    ForeignKey.visitMap none (some (SqlVal.int 42)) =
      { val := none, valpk := none } ∧
    (ForeignKey.visitMap none (some (SqlVal.int 42))).pk.1 = none := by
  decide

/-- C2 counterexample: the claim states that for a `ForeignKey` constructed
from an entity, the first call to the key accessor memoizes the derived
key.  On a concrete value-constructed key, `pk()` derives the key from the
cached value but the key cell is still empty afterwards, and a second call
derives from the value again — `pk()` never memoizes. -/
theorem c2_pk_does_not_memoize :
    ((ForeignKey.fromEntity { pkVal := SqlVal.int 7, pkValid := true }).pk.1 =
      some (SqlVal.int 7)) ∧
    ((ForeignKey.fromEntity { pkVal := SqlVal.int 7, pkValid := true }).pk.2.valpk =
      none) ∧
    ((ForeignKey.fromEntity
        { pkVal := SqlVal.int 7, pkValid := true }).pk.2.pk.1 =
      some (SqlVal.int 7)) := by
  decide

/-- C2 amended: for a value-constructed `ForeignKey`, the public `pk()`
accessor derives the key from the cached value on every call and never
memoizes it (the cell state is unchanged); it is the internal key accessor
`ensure_valpk` (used by `to_sql`, `Clone`, `Debug`) that derives the key
from the cached value's own key on first call and memoizes it, and once
the key cell is populated `ensure_valpk` returns the cached key with no
recomputation and no state change. -/
theorem c2_key_memoization (e : Entity) (fk : ForeignKey) (k : SqlVal)
    (h : fk.valpk = some k) :
    (ForeignKey.fromEntity e).pk = (some e.pkVal, ForeignKey.fromEntity e) ∧
    (ForeignKey.fromEntity e).ensure_valpk =
      some (e.pkVal, { val := some e, valpk := some e.pkVal }) ∧
    fk.ensure_valpk = some (k, fk) := by
  refine ⟨rfl, rfl, ?_⟩
  simp [ForeignKey.ensure_valpk, h]

/-- C2 witness: the memoization theorem applied to a concrete entity and a
concrete key-cached cell. -/
theorem c2_key_memoization_witness :
    (ForeignKey.fromEntity { pkVal := SqlVal.int 3, pkValid := true }).pk =
      (some (SqlVal.int 3),
        ForeignKey.fromEntity { pkVal := SqlVal.int 3, pkValid := true }) ∧
    (ForeignKey.fromEntity { pkVal := SqlVal.int 3, pkValid := true }).ensure_valpk =
      some (SqlVal.int 3,
        { val := some { pkVal := SqlVal.int 3, pkValid := true },
          valpk := some (SqlVal.int 3) }) ∧
    (ForeignKey.from_pk (SqlVal.int 9)).ensure_valpk =
      some (SqlVal.int 9, ForeignKey.from_pk (SqlVal.int 9)) :=
  c2_key_memoization { pkVal := SqlVal.int 3, pkValid := true }
    (ForeignKey.from_pk (SqlVal.int 9)) (SqlVal.int 9) rfl

/-- C3 counterexample: the claim states that a failed save leaves the
pending logs unchanged.  On an initialized `Many` with pending adds
`[1, 2]` and a connection whose inserts fail, `save` pops the value `2`
from the log before attempting (and failing) its insert, so the call
returns an error with the pending-add log already shrunk to `[1]`. -/
theorem c3_failed_save_mutates_log :
    (Many.save
      { item_table := "t"
        owner := some (SqlVal.int 7)
        owner_type := SqlType.int
        new_values := [SqlVal.int 1, SqlVal.int 2]
        removed_values := []
        all_values := none }
      { insertOk := fun _ => false, deleteOk := fun _ => true }).1 =
      Except.error (Error.backend "insert_only") ∧
    (Many.save
      { item_table := "t"
        owner := some (SqlVal.int 7)
        owner_type := SqlType.int
        new_values := [SqlVal.int 1, SqlVal.int 2]
        removed_values := []
        all_values := none }
      { insertOk := fun _ => false, deleteOk := fun _ => true }).2.1.new_values =
      [SqlVal.int 1] :=
  ⟨rfl, rfl⟩

/-- C3 amended: when `save` returns an error the in-memory logs may be
partially drained, but in a constrained way: the pending-add log is always
a prefix of its pre-call contents (entries are popped from the end before
each insert attempt, so successfully inserted entries and the entry whose
insert failed are gone), and the pending-remove log is either unchanged
(failure before the delete step) or empty (the log is taken in full before
the bulk delete is issued, so a failed delete leaves it empty). -/
theorem c3_failed_save_log_state (m : Many) (conn : SaveConn) (e : Error)
    (h : (m.save conn).1 = Except.error e) :
    (m.save conn).2.1.new_values <+: m.new_values ∧
    ((m.save conn).2.1.removed_values = m.removed_values ∨
      (m.save conn).2.1.removed_values = []) := by
  cases hown : m.owner with
  | none => simp [Many.save, hown]
  | some ownr =>
    have hpref :
        (Many.saveInsertLoop conn m.item_table ownr m.new_values.reverse).1.reverse <+:
          m.new_values := by
      obtain ⟨k, hk⟩ := saveInsertLoop_drop conn m.item_table ownr m.new_values.reverse
      rw [hk]
      have h2 := List.reverse_prefix.mpr (List.drop_suffix k m.new_values.reverse)
      rwa [List.reverse_reverse] at h2
    by_cases hloop :
        (Many.saveInsertLoop conn m.item_table ownr m.new_values.reverse).2.2 = true
    · obtain ⟨hnil, -⟩ :=
        saveInsertLoop_ok conn m.item_table ownr m.new_values.reverse hloop
      by_cases hrem : m.removed_values.isEmpty
      · exfalso
        simp [Many.save, hown, hloop, hrem] at h
      · by_cases hdel : conn.deleteOk (BoolExpr.inList "has" m.removed_values) = true
        · exfalso
          simp [Many.save, hown, hloop, hrem, hdel] at h
        · constructor
          · simp [Many.save, hown, hloop, hrem, hdel, hnil]
          · right
            simp [Many.save, hown, hloop, hrem, hdel]
    · constructor
      · simpa [Many.save, hown, hloop] using hpref
      · left
        simp [Many.save, hown, hloop]

/-- C3 witness: the amended theorem applied to an initialized `Many` with
pending adds `[1, 2]` on a connection whose inserts fail. -/
theorem c3_failed_save_log_state_witness :
    (Many.save
      { item_table := "t"
        owner := some (SqlVal.int 7)
        owner_type := SqlType.int
        new_values := [SqlVal.int 1, SqlVal.int 2]
        removed_values := [SqlVal.int 9]
        all_values := none }
      { insertOk := fun _ => false, deleteOk := fun _ => true }).2.1.new_values <+:
      [SqlVal.int 1, SqlVal.int 2] ∧
    ((Many.save
      { item_table := "t"
        owner := some (SqlVal.int 7)
        owner_type := SqlType.int
        new_values := [SqlVal.int 1, SqlVal.int 2]
        removed_values := [SqlVal.int 9]
        all_values := none }
      { insertOk := fun _ => false, deleteOk := fun _ => true }).2.1.removed_values =
        [SqlVal.int 9] ∨
      (Many.save
      { item_table := "t"
        owner := some (SqlVal.int 7)
        owner_type := SqlType.int
        new_values := [SqlVal.int 1, SqlVal.int 2]
        removed_values := [SqlVal.int 9]
        all_values := none }
      { insertOk := fun _ => false, deleteOk := fun _ => true }).2.1.removed_values =
        []) :=
  c3_failed_save_log_state
    { item_table := "t"
      owner := some (SqlVal.int 7)
      owner_type := SqlType.int
      new_values := [SqlVal.int 1, SqlVal.int 2]
      removed_values := [SqlVal.int 9]
      all_values := none }
    { insertOk := fun _ => false, deleteOk := fun _ => true }
    (Error.backend "insert_only") rfl

/-- C4: a member whose key sits in the pending-remove log but whose join
row is still present is still returned by `load()` (the load path never
consults the pending-remove log); only after a successful `save` has issued
the bulk delete — and the backend has applied it — does a (fresh-cache)
`load()` stop returning it. -/
theorem c4_removal_effective_only_after_persist
    (ownr : SqlVal) (A : Entity) (db : Db) (m : Many) (conn : SaveConn)
    (hfail : db.fail = false) (hA : A ∈ db.members)
    (hrow : (ownr, A.pkVal) ∈ db.joinRows)
    (hown : m.owner = some ownr) (hcache : m.all_values = none)
    (hrem : A.pkVal ∈ m.removed_values) (hnew : m.new_values = [])
    (hdel : conn.deleteOk (BoolExpr.inList "has" m.removed_values) = true) :
    (∃ vs m', m.load db = Except.ok (vs, m') ∧ A ∈ vs) ∧
    (m.save conn).1 = Except.ok () ∧
    (∀ vs' m'',
      ((m.save conn).2.1).load (Db.applyOps db (m.save conn).2.2) =
        Except.ok (vs', m'') → A ∉ vs') := by
  have hrem_ne : m.removed_values ≠ [] := by
    intro hh
    rw [hh] at hrem
    exact absurd hrem (List.not_mem_nil _)
  have hA1 : A ∈ db.runSubquery ownr := by
    unfold Db.runSubquery
    rw [List.mem_filter]
    refine ⟨hA, ?_⟩
    simp only [decide_eq_true_eq]
    exact List.mem_map.mpr
      ⟨(ownr, A.pkVal), List.mem_filter.mpr ⟨hrow, by simp⟩, rfl⟩
  have hsave :
      m.save conn =
        (Except.ok (),
         { m with new_values := [], removed_values := [] },
         [DbOp.deleteWhere m.item_table
           (BoolExpr.inList "has" m.removed_values)]) := by
    simp [Many.save, hown, hnew, Many.saveInsertLoop, List.isEmpty_iff,
      hrem_ne, hdel]
  refine ⟨⟨db.runSubquery ownr,
    { m with all_values := some (db.runSubquery ownr) }, ?_, hA1⟩, ?_, ?_⟩
  · simp [Many.load, hown, hcache, hfail, hnew]
  · rw [hsave]
  · intro vs' m'' hload
    rw [hsave] at hload
    simp only [Db.applyOps, List.foldl, Db.applyOp] at hload
    simp [Many.load, hown, hcache, hfail] at hload
    obtain ⟨hvs, -⟩ := hload
    intro hmem
    rw [← hvs] at hmem
    unfold Db.runSubquery at hmem
    rw [List.mem_filter] at hmem
    obtain ⟨-, hcond⟩ := hmem
    simp only [decide_eq_true_eq] at hcond
    obtain ⟨r, hr, hr2⟩ := List.mem_map.mp hcond
    rw [List.mem_filter] at hr
    obtain ⟨hr_join, -⟩ := hr
    rw [List.mem_filter] at hr_join
    obtain ⟨-, hkeep⟩ := hr_join
    simp [BoolExpr.evalJoinRow, hr2] at hkeep
    exact hkeep hrem

/-- C4 witness: the theorem applied to owner 7, member 1 (joined in the
backend and present in the pending-remove log) on an all-succeeding
connection. -/
theorem c4_removal_effective_only_after_persist_witness :
    (∃ vs m', manyRem.load dbW = Except.ok (vs, m') ∧ entA ∈ vs) ∧
    (manyRem.save connOk).1 = Except.ok () ∧
    (∀ vs' m'',
      ((manyRem.save connOk).2.1).load
          (Db.applyOps dbW (manyRem.save connOk).2.2) =
        Except.ok (vs', m'') → entA ∉ vs') :=
  c4_removal_effective_only_after_persist (SqlVal.int 7) entA dbW manyRem
    connOk rfl (by decide) (by decide) rfl rfl (by decide) rfl rfl

/-- C5: a successful `save` on an initialized `Many` issues exactly one
`insert_only(item_table, [owner, member])` per entry of the pending-add log
(the trace is the log reversed, and up to permutation it is exactly one
insert per entry), followed by one bulk `delete_where` on `has IN
pending-removes` exactly when the pending-remove log is non-empty; on
return both pending logs are empty. -/
theorem c5_successful_save (m : Many) (conn : SaveConn) (ownr : SqlVal)
    (hown : m.owner = some ownr) (hok : (m.save conn).1 = Except.ok ()) :
    (m.save conn).2.2 =
      (m.new_values.reverse.map fun v => DbOp.insertOnly m.item_table [ownr, v]) ++
        (if m.removed_values.isEmpty then []
         else [DbOp.deleteWhere m.item_table
                (BoolExpr.inList "has" m.removed_values)]) ∧
    List.Perm
      ((m.save conn).2.2.filterMap fun op =>
        match op with
        | DbOp.insertOnly tbl vals => some (tbl, vals)
        | DbOp.deleteWhere _ _ => none)
      (m.new_values.map fun v => (m.item_table, [ownr, v])) ∧
    (m.save conn).2.1.new_values = [] ∧
    (m.save conn).2.1.removed_values = [] := by
  by_cases hloop :
      (Many.saveInsertLoop conn m.item_table ownr m.new_values.reverse).2.2 = true
  · obtain ⟨hnil, hops⟩ :=
      saveInsertLoop_ok conn m.item_table ownr m.new_values.reverse hloop
    have hperm :
        List.Perm
          ((m.new_values.reverse.map fun v =>
              DbOp.insertOnly m.item_table [ownr, v]).filterMap fun op =>
            match op with
            | DbOp.insertOnly tbl vals => some (tbl, vals)
            | DbOp.deleteWhere _ _ => none)
          (m.new_values.map fun v => (m.item_table, [ownr, v])) := by
      rw [List.filterMap_map]
      have hfm :
          (m.new_values.reverse.filterMap fun v =>
            some (m.item_table, [ownr, v])) =
            m.new_values.reverse.map fun v => (m.item_table, [ownr, v]) :=
        congrFun (List.filterMap_eq_map fun v => (m.item_table, [ownr, v]))
          m.new_values.reverse
      rw [Function.comp_def, hfm, List.map_reverse]
      exact List.reverse_perm _
    by_cases hrem : m.removed_values.isEmpty
    · refine ⟨?_, ?_, ?_, ?_⟩
      · simp [Many.save, hown, hloop, hrem, hops]
      · simpa [Many.save, hown, hloop, hrem, hops] using hperm
      · simp [Many.save, hown, hloop, hrem]
      · simp [Many.save, hown, hloop, hrem, List.isEmpty_iff.mp hrem]
    · by_cases hdel : conn.deleteOk (BoolExpr.inList "has" m.removed_values) = true
      · refine ⟨?_, ?_, ?_, ?_⟩
        · simp [Many.save, hown, hloop, hrem, hdel, hops]
        · simpa [Many.save, hown, hloop, hrem, hdel, hops,
            List.filterMap_append] using hperm
        · simp [Many.save, hown, hloop, hrem, hdel]
        · simp [Many.save, hown, hloop, hrem, hdel]
      · exfalso
        simp [Many.save, hown, hloop, hrem, hdel] at hok
  · exfalso
    simp [Many.save, hown, hloop] at hok

/-- C5 witness: the successful-save theorem applied to an initialized
`Many` with pending add `[1]` and pending remove `[9]` on an all-succeeding
connection. -/
theorem c5_successful_save_witness :
    (Many.save manyW connOk).2.2 =
      (manyW.new_values.reverse.map fun v =>
        DbOp.insertOnly manyW.item_table [SqlVal.int 7, v]) ++
        (if manyW.removed_values.isEmpty then []
         else [DbOp.deleteWhere manyW.item_table
                (BoolExpr.inList "has" manyW.removed_values)]) ∧
    List.Perm
      ((Many.save manyW connOk).2.2.filterMap fun op =>
        match op with
        | DbOp.insertOnly tbl vals => some (tbl, vals)
        | DbOp.deleteWhere _ _ => none)
      (manyW.new_values.map fun v => (manyW.item_table, [SqlVal.int 7, v])) ∧
    (Many.save manyW connOk).2.1.new_values = [] ∧
    (Many.save manyW connOk).2.1.removed_values = [] :=
  c5_successful_save manyW connOk (SqlVal.int 7) rfl rfl

/-- C8: loading a never-initialized `Many` returns an empty sequence and
never an error, whatever the connection state — the connection is not even
consulted (the uninitialized state short-circuits before any query). -/
theorem c8_uninitialized_load_empty (m : Many) (db : Db) (h : m.owner = none) :
    m.load db = Except.ok ([], m) := by
  simp [Many.load, h]

/-- C8 witness: a fresh `Many::new` loaded against a connection on which
every query fails still yields the empty sequence. -/
theorem c8_uninitialized_load_empty_witness :
    Many.new.load { joinRows := [], members := [], fail := true } =
      Except.ok ([], Many.new) :=
  c8_uninitialized_load_empty Many.new
    { joinRows := [], members := [], fail := true } rfl

/-- C9: the mapping adapter short-circuits on the first projection
failure.  If the underlying cursor holds rows `pre ++ bad :: post` where
the projection succeeds on every row of `pre` (with results `bs`) and
fails on `bad` with error `e`, then a single `next` at `bad` propagates
exactly `e`, and driving the adapter to completion yields exactly the
previously projected items `bs` and stops with `e` — no item of `post` is
ever projected. -/
theorem c9_mapderef_short_circuits {ρ β : Type} (f : ρ → Except Error β)
    (pre : List ρ) (bs : List β) (bad : ρ) (post : List ρ) (e : Error)
    (hpre : List.Forall₂ (fun r b => f r = Except.ok b) pre bs)
    (hbad : f bad = Except.error e) :
    mapDerefDrive f (pre ++ bad :: post) = (bs, some e) ∧
    (mapDerefNext f (bad :: post)).1 = Except.error e := by
  constructor
  · induction hpre with
    | nil => simp [mapDerefDrive, hbad]
    | cons hfb htail ih => simp [mapDerefDrive, hfb, ih]
  · simp [mapDerefNext, hbad, Except.map]

/-- C9 witness: the short-circuit theorem on a concrete cursor `[1, 2, 0,
3]` where the projection fails exactly on `0`. -/
theorem c9_mapderef_short_circuits_witness :
    mapDerefDrive
      (fun n : Nat =>
        if n = 0 then Except.error Error.valueNotLoaded else Except.ok n)
      ([1, 2] ++ 0 :: [3]) = ([1, 2], some Error.valueNotLoaded) ∧
    (mapDerefNext
      (fun n : Nat =>
        if n = 0 then Except.error Error.valueNotLoaded else Except.ok n)
      (0 :: [3])).1 = Except.error Error.valueNotLoaded :=
  c9_mapderef_short_circuits
    (fun n : Nat =>
      if n = 0 then Except.error Error.valueNotLoaded else Except.ok n)
    [1, 2] [1, 2] 0 [3] Error.valueNotLoaded
    (List.Forall₂.cons rfl (List.Forall₂.cons rfl List.Forall₂.nil)) rfl

/-- C6: the claim states that after `next()` returns a row, `current()`
returns that same row.  In `VecRows` the index is incremented by `next`
before `current` reads it, so `current()` returns the upcoming row
instead: with rows `[10, 20]`, `next()` returns row `10` but `current()`
then returns row `20`. -/
theorem c6_current_is_not_most_recent :
    ((VecRows.new [10, 20]).next.1 = some 10) ∧
    ((VecRows.new [10, 20]).next.2.current = some 20) ∧
    ((VecRows.new [10, 20]).next.2.current ≠ (VecRows.new [10, 20]).next.1) := by
  decide

/-- C7: `Many::add` fails with `ValueNotSaved` exactly when the candidate's
primary key looks uninitialized, and in that case the whole in-memory state
(pending-add log and cached result set included) is unchanged; otherwise it
appends the candidate's key to the pending-add log and clears the cached
result set. -/
theorem c7_add_value_not_saved (m : Many) (e : Entity) :
    ((m.add e).1 = Except.error Error.valueNotSaved ↔ e.pkValid = false) ∧
    (∀ err, (m.add e).1 = Except.error err → err = Error.valueNotSaved) ∧
    (e.pkValid = false → (m.add e).2 = m) ∧
    (e.pkValid = true →
      (m.add e).1 = Except.ok () ∧
      (m.add e).2 =
        { m with
          all_values := none
          new_values := m.new_values ++ [e.pkVal] }) := by
  cases he : e.pkValid <;> simp [Many.add, he]

/-- C10: equality of `Many` values holds exactly when owner key and
join-table name agree; the two pending logs and the cached result set are
not consulted, so two references to the same owner and table with
different unpersisted adds, removes or caches compare equal. -/
theorem c10_many_eq_ignores_logs (a b : Many) :
    (Many.beq a b = true ↔ a.owner = b.owner ∧ a.item_table = b.item_table) ∧
    ∀ nv rv av nv' rv' av',
      Many.beq
        { a with new_values := nv, removed_values := rv, all_values := av }
        { a with new_values := nv', removed_values := rv', all_values := av' } =
        true := by
  constructor
  · simp [Many.beq]
  · intro nv rv av nv' rv' av'
    simp [Many.beq]

end Butane
